import Mathlib

/-!
Verification of the gate-error noise core (src/src/noise/gate_error.hpp):
the CPTP decomposition entry point GateError::set_from_ops, the mutator
GateError::set_probabilities, and the sampling dispatcher
GateError::sample_noise.

Doubles are modelled as exact reals, complex entries as Mathlib complex
numbers.  The matrix library, the randomness engine and the two
sub-channels are external collaborators of this core (spec section 6);
they are modelled from the spec and marked as such in their doc comments.
C++ exceptions are modelled with Except; the out-of-bounds vector access
mats[0] on an empty input is modelled as a distinguished outcome.
-/

open scoped Classical

noncomputable section

namespace AerNoise

/-- Complex matrix with explicit dimensions.  Entries are a total
function; indices outside the dimensions never influence the predicates
and operations below on well-formed uses. -/
structure CMat where
  rows : ℕ
  cols : ℕ
  entry : ℕ → ℕ → ℂ

/-- Modelled from the spec: adjoint(M), the conjugate transpose, from the
external matrix library (Utils::dagger). -/
def dagger (m : CMat) : CMat :=
  ⟨m.cols, m.rows, fun i j => (starRingEnd ℂ) (m.entry j i)⟩

/-- Modelled from the spec: matrix product, external matrix library. -/
def mmul (a b : CMat) : CMat :=
  ⟨a.rows, b.cols, fun i j => ∑ k ∈ Finset.range a.cols, a.entry i k * b.entry k j⟩

/-- Modelled from the spec: entrywise matrix sum, external matrix library. -/
def madd (a b : CMat) : CMat :=
  ⟨a.rows, a.cols, fun i j => a.entry i j + b.entry i j⟩

/-- Modelled from the spec: scaling of a matrix by a real scalar,
external matrix library. -/
def smulMat (c : ℝ) (m : CMat) : CMat :=
  ⟨m.rows, m.cols, fun i j => (c : ℂ) * m.entry i j⟩

/-- Zero square matrix, the initial value of the CPTP accumulator
(the C++ code value-initializes the accumulator from mats[0]'s size). -/
def zeroMat (n : ℕ) : CMat := ⟨n, n, fun _ _ => 0⟩

/-- Modelled from the spec: squareness test Utils::is_square, external. -/
def is_square (m : CMat) : Prop := m.rows = m.cols

/-- Modelled from the spec: identity test within tolerance,
Utils::is_identity, external: every in-range entry is within tol of the
corresponding identity-matrix entry, and the matrix is square. -/
def is_identity (m : CMat) (tol : ℝ) : Prop :=
  m.rows = m.cols ∧
    ∀ i < m.rows, ∀ j < m.cols,
      Complex.abs (m.entry i j - if i = j then 1 else 0) ≤ tol

/-- Modelled from the spec: unitarity test within tolerance,
Utils::is_unitary, external: M times adjoint(M) is an identity within
tolerance. -/
def is_unitary (m : CMat) (tol : ℝ) : Prop :=
  is_identity (mmul m (dagger m)) tol

/-- Error taxonomy of the core (spec section 7), plus a distinguished
outcome for the undefined behaviour of the out-of-bounds vector access
mats[0] on an empty input. -/
inductive GError where
  | invalidChannel
  | nonSquareOperator
  | invalidDecomposition
  | unreachableState
  | outOfBounds
deriving DecidableEq

/-- Gate operations are opaque to this core (spec section 6): either the
original operation being replaced, or a matrix replacement operation
produced by a sub-channel. -/
inductive Op where
  | gate (id : ℕ)
  | matOp (m : CMat) (qubits : List ℕ)

/-- Sequence of replacement operations returned by a sampling call. -/
def NoiseOps := List Op

/-- Modelled from the spec: the external randomness source, deterministic
given its seed state.  It is a stream of raw draws and a position. -/
structure RngEngine where
  stream : ℕ → ℕ
  pos : ℕ

/-- Modelled from the spec: rand_int draws one outcome label for the given
discrete distribution: the engine's next raw value is returned as the
label and the engine advances by exactly one position.  Which label the
external engine returns is outside this core's contract (the dispatcher
defends against out-of-range labels). -/
def RngEngine.rand_int (rng : RngEngine) (_weights : List ℝ) : ℕ × RngEngine :=
  (rng.stream rng.pos, ⟨rng.stream, rng.pos + 1⟩)

/-- Modelled from the spec: the unitary sub-channel, holding candidate
unitaries and their per-matrix probabilities (UnitaryError, external,
noise/unitary_error.hpp is not part of the analysed sources). -/
structure UnitaryError where
  probs : List ℝ
  unitaries : List CMat

/-- Modelled from the spec: the unitary sub-channel draws one unitary
according to its internal distribution and returns the equivalent
replacement operation. -/
def UnitaryError.sample_noise (e : UnitaryError) (_op : Op) (qubits : List ℕ)
    (rng : RngEngine) : NoiseOps × RngEngine :=
  let d := rng.rand_int e.probs
  ([Op.matOp (e.unitaries.getD d.1 (zeroMat 0)) qubits], d.2)

/-- Modelled from the spec: the Kraus sub-channel, holding Kraus operators
and an activation probability (KrausError, external,
noise/kraus_error.hpp is not part of the analysed sources). -/
structure KrausError where
  kraus : List CMat
  probability : ℝ

/-- Modelled from the spec: the Kraus sub-channel stochastically applies
the Kraus map (a no-op when the activation draw fails). -/
def KrausError.sample_noise (e : KrausError) (op : Op) (qubits : List ℕ)
    (rng : RngEngine) : NoiseOps × RngEngine :=
  let d := rng.rand_int [1 - e.probability, e.probability]
  if d.1 = 0 then ([op], d.2)
  else ([Op.matOp (e.kraus.getD 0 (zeroMat 0)) qubits], d.2)

/-- State of a GateError model: the stored three-way weights
(probabilities_), and the two sub-channels. -/
structure GateError where
  probabilities_ : List ℝ
  unitary_error_ : UnitaryError
  kraus_error_ : KrausError

/-- GateError::set_probabilities: store the three supplied weights as the
three-outcome distribution, verbatim. -/
def GateError.set_probabilities (g : GateError)
    (p_identity p_unitary p_kraus : ℝ) : GateError :=
  { g with probabilities_ := [p_identity, p_unitary, p_kraus] }

/-- GateError::set_kraus: replace the Kraus sub-channel outright. -/
def GateError.set_kraus (g : GateError) (err : KrausError) : GateError :=
  { g with kraus_error_ := err }

/-- GateError::set_unitary: replace the unitary sub-channel outright. -/
def GateError.set_unitary (g : GateError) (err : UnitaryError) : GateError :=
  { g with unitary_error_ := err }

/-- GateError::sample_noise: draw one label from the stored three-way
distribution; label 0 returns the original operation as a singleton,
label 1 delegates verbatim to the unitary sub-channel, label 2 to the
Kraus sub-channel, and anything else throws (invalid_argument, the
defensive default branch). -/
def GateError.sample_noise (g : GateError) (op : Op) (qubits : List ℕ)
    (rng : RngEngine) : Except GError (NoiseOps × RngEngine) :=
  match rng.rand_int g.probabilities_ with
  | (0, rng1) => .ok ([op], rng1)
  | (1, rng1) => .ok (g.unitary_error_.sample_noise op qubits rng1)
  | (2, rng1) => .ok (g.kraus_error_.sample_noise op qubits rng1)
  | (_, _) => .error .unreachableState

/-- Tolerance constant of set_from_ops (double threshold = 1e-10). -/
def threshold : ℝ := 1 / 10 ^ 10

/-- Weight p accumulated for one matrix in set_from_ops, exactly as the
source computes it: the sum over the row index j of
real(abs(mat(j,0) * conj(mat(0,j)))). -/
def weight (m : CMat) : ℝ :=
  ∑ j ∈ Finset.range m.rows,
    Complex.abs (m.entry j 0 * (starRingEnd ℂ) (m.entry 0 j))

/-- Accumulator state of the classification loop of set_from_ops. -/
structure ClassState where
  p_identity : ℝ
  p_unitary : ℝ
  probs_unitaries : List ℝ
  unitaries : List CMat
  kraus : List CMat

/-- One iteration of the classification loop of set_from_ops: reject
non-square matrices, compute the weight p, drop the matrix when p is not
positive, otherwise rescale by 1/sqrt(p) and classify the rescaled matrix
as identity, unitary, or general Kraus operator. -/
def classifyStep (s : ClassState) (m : CMat) : Except GError ClassState :=
  if ¬ is_square m then .error .nonSquareOperator
  else
    let p := weight m
    if p > 0 then
      let tmp := smulMat (1 / Real.sqrt p) m
      if is_identity tmp threshold then
        .ok { s with p_identity := s.p_identity + p }
      else if is_unitary tmp threshold then
        .ok { s with p_unitary := s.p_unitary + p,
                     probs_unitaries := s.probs_unitaries ++ [p],
                     unitaries := s.unitaries ++ [tmp] }
      else
        .ok { s with kraus := s.kraus ++ [m] }
    else .ok s

/-- Classification loop of set_from_ops over the whole input list,
fail-fast on the first thrown error. -/
def classifyList (s : ClassState) : List CMat → Except GError ClassState
  | [] => .ok s
  | m :: rest =>
    match classifyStep s m with
    | .error e => .error e
    | .ok s1 => classifyList s1 rest

/-- Classification of an input list starting from the zero accumulator,
as set_from_ops performs it. -/
def classify (mats : List CMat) : Except GError ClassState :=
  classifyList ⟨0, 0, [], [], []⟩ mats

/-- CPTP accumulator of set_from_ops: the sum over all input matrices of
adjoint(M) * M, starting from a zero matrix of the given dimension. -/
def cptpSum (mats : List CMat) (dim : ℕ) : CMat :=
  mats.foldl (fun acc m => madd acc (mmul (dagger m) m)) (zeroMat dim)

/-- GateError::set_from_ops, translated line by line: read mats[0] (an
out-of-bounds access on an empty input), validate the CPTP sum, classify
every operator, infer the Kraus weight, run the sanity check, rescale the
Kraus operators and the unitary weights, store the three-way distribution
folded with p_error, and configure the two sub-channels. -/
def GateError.set_from_ops (g : GateError) (mats : List CMat) (p_error : ℝ) :
    Except GError GateError :=
  match mats with
  | [] => .error .outOfBounds
  | m0 :: _ =>
    if ¬ is_identity (cptpSum mats m0.cols) threshold then
      .error .invalidChannel
    else
      match classify mats with
      | .error e => .error e
      | .ok s =>
        let p_kraus := 1 - s.p_identity - s.p_unitary
        if |s.p_identity + s.p_unitary + p_kraus - 1| > threshold then
          .error .invalidDecomposition
        else
          let kraus2 := if p_kraus > 0 ∧ p_kraus < 1
            then s.kraus.map (fun k => smulMat (1 / Real.sqrt p_kraus) k)
            else s.kraus
          let probs2 := if s.p_unitary > 0 ∧ s.p_unitary < 1
            then s.probs_unitaries.map (fun p => p / s.p_unitary)
            else s.probs_unitaries
          let g1 := g.set_probabilities (1 - p_error + p_error * s.p_identity)
            (p_error * s.p_unitary) (p_error * p_kraus)
          .ok { g1 with
                unitary_error_ := ⟨probs2, s.unitaries⟩,
                kraus_error_ := ⟨kraus2, if kraus2.isEmpty then 0 else 1⟩ }

/-! Concrete inputs used to exercise the code. -/

/-- Identity matrix on one qubit. -/
def I2 : CMat := ⟨2, 2, fun i j => if i = j then 1 else 0⟩

/-- Half of the identity matrix: its adjoint-product sum is I/4, far from
the identity, so the CPTP validation rejects it. -/
def Mhalf : CMat := ⟨2, 2, fun i j => if i = j then (1 / 2 : ℂ) else 0⟩

/-- Non-square 2 x 1 column [1; 0]: its adjoint-product is the 1 x 1
identity, so it passes the CPTP validation. -/
def Mcol : CMat := ⟨2, 1, fun i j => if i = 0 ∧ j = 0 then 1 else 0⟩

/-- Non-square 2 x 1 column [1/2; 0]: its adjoint-product is [1/4], so the
CPTP validation rejects it before the squareness check is reached. -/
def McolHalf : CMat := ⟨2, 1, fun i j => if i = 0 ∧ j = 0 then (1 / 2 : ℂ) else 0⟩

/-- First amplitude-damping Kraus operator diag(1, 4/5) (damping 9/25). -/
def K0 : CMat := ⟨2, 2, fun i j =>
  if i = 0 ∧ j = 0 then 1 else if i = 1 ∧ j = 1 then (4 / 5 : ℂ) else 0⟩

/-- Second amplitude-damping Kraus operator, (0,1) entry 3/5, rest 0. -/
def K1 : CMat := ⟨2, 2, fun i j => if i = 0 ∧ j = 1 then (3 / 5 : ℂ) else 0⟩

/-- Tiny perturbation accepted by the 1e-10 tolerance. -/
def eps : ℝ := 4 / 10 ^ 11

/-- Scaled identity (1 + eps) I, a CPTP map within tolerance whose
classified identity weight (1 + eps)^2 exceeds 1. -/
def Meps : CMat := ⟨2, 2, fun i j => if i = j then ((1 + eps : ℝ) : ℂ) else 0⟩

/-- Concrete model state used to exercise the sampler and the setters. -/
def g0 : GateError := ⟨[1, 0, 0], ⟨[], []⟩, ⟨[], 0⟩⟩

/-- Concrete opaque gate operation. -/
def op0 : Op := .gate 0

/-- Repeated sampling: the list of results of n successive sample_noise
calls, each feeding the advanced randomness engine to the next (stopping
at the first internal error). -/
def sample_seq (g : GateError) (op : Op) (qubits : List ℕ) :
    ℕ → RngEngine → List (Except GError NoiseOps)
  | 0, _ => []
  | n + 1, rng =>
    match g.sample_noise op qubits rng with
    | .ok (ops, rng1) => .ok ops :: sample_seq g op qubits n rng1
    | .error e => [.error e]

/-- The sequence of branch labels drawn by n successive top-level draws
from the model's three-way distribution. -/
def branch_seq (g : GateError) : ℕ → RngEngine → List ℕ
  | 0, _ => []
  | n + 1, rng =>
    let d := rng.rand_int g.probabilities_
    d.1 :: branch_seq g n d.2

/-- Concrete randomness engine whose raw draws are all 0. -/
def rng0 : RngEngine := ⟨fun _ => 0, 0⟩

/-- Second concrete randomness engine in the same seed state as rng0,
written differently. -/
def rngB : RngEngine := ⟨fun k => 0 * k, 0⟩

/-! Structural lemmas about the classification loop and set_from_ops. -/

lemma threshold_pos : (0 : ℝ) < threshold := by norm_num [threshold]

lemma sanity_check_false (a b : ℝ) :
    ¬ (|a + b + (1 - a - b) - 1| > threshold) := by
  have h : a + b + (1 - a - b) - 1 = 0 := by ring
  rw [h, abs_zero]
  exact not_lt.mpr (le_of_lt threshold_pos)

lemma classifyStep_nonsquare (s : ClassState) (m : CMat) (h : ¬ is_square m) :
    classifyStep s m = .error .nonSquareOperator := by
  simp only [classifyStep, if_pos h]

lemma classifyStep_drop (s : ClassState) (m : CMat) (hsq : is_square m)
    (hp : ¬ weight m > 0) : classifyStep s m = .ok s := by
  simp only [classifyStep, if_neg (not_not_intro hsq), if_neg hp]

lemma classifyStep_id (s : ClassState) (m : CMat) (hsq : is_square m)
    (hp : weight m > 0)
    (hid : is_identity (smulMat (1 / Real.sqrt (weight m)) m) threshold) :
    classifyStep s m = .ok { s with p_identity := s.p_identity + weight m } := by
  simp only [classifyStep, if_neg (not_not_intro hsq), if_pos hp, if_pos hid]

lemma classifyStep_unitary (s : ClassState) (m : CMat) (hsq : is_square m)
    (hp : weight m > 0)
    (hid : ¬ is_identity (smulMat (1 / Real.sqrt (weight m)) m) threshold)
    (hu : is_unitary (smulMat (1 / Real.sqrt (weight m)) m) threshold) :
    classifyStep s m = .ok { s with
      p_unitary := s.p_unitary + weight m,
      probs_unitaries := s.probs_unitaries ++ [weight m],
      unitaries := s.unitaries ++ [smulMat (1 / Real.sqrt (weight m)) m] } := by
  simp only [classifyStep, if_neg (not_not_intro hsq), if_pos hp, if_neg hid, if_pos hu]

lemma classifyStep_kraus (s : ClassState) (m : CMat) (hsq : is_square m)
    (hp : weight m > 0)
    (hid : ¬ is_identity (smulMat (1 / Real.sqrt (weight m)) m) threshold)
    (hu : ¬ is_unitary (smulMat (1 / Real.sqrt (weight m)) m) threshold) :
    classifyStep s m = .ok { s with kraus := s.kraus ++ [m] } := by
  simp only [classifyStep, if_neg (not_not_intro hsq), if_pos hp, if_neg hid, if_neg hu]

lemma classifyStep_err_eq (s : ClassState) (m : CMat) (e : GError)
    (h : classifyStep s m = .error e) : e = .nonSquareOperator := by
  by_cases hsq : is_square m
  · simp only [classifyStep, if_neg (not_not_intro hsq)] at h
    split_ifs at h
  · rw [classifyStep_nonsquare s m hsq] at h
    exact (Except.error.injEq _ _).mp h.symm

lemma classifyStep_ok_of_square (s : ClassState) (m : CMat) (hsq : is_square m) :
    ∃ s1, classifyStep s m = .ok s1 := by
  simp only [classifyStep, if_neg (not_not_intro hsq)]
  split_ifs <;> exact ⟨_, rfl⟩

lemma classifyStep_preserves_nonneg (s s1 : ClassState) (m : CMat)
    (h : classifyStep s m = .ok s1) (h0 : 0 ≤ s.p_identity)
    (h1 : 0 ≤ s.p_unitary) : 0 ≤ s1.p_identity ∧ 0 ≤ s1.p_unitary := by
  by_cases hsq : is_square m
  · simp only [classifyStep, if_neg (not_not_intro hsq)] at h
    split_ifs at h with hp hid hu <;>
      cases (Except.ok.injEq _ _).mp h <;> constructor <;> dsimp <;> nlinarith
  · rw [classifyStep_nonsquare s m hsq] at h
    exact absurd h (by simp)

lemma classifyList_err_eq (mats : List CMat) : ∀ (s : ClassState) (e : GError),
    classifyList s mats = .error e → e = .nonSquareOperator := by
  induction mats with
  | nil => intro s e h; simp [classifyList] at h
  | cons m rest ih =>
    intro s e h
    simp only [classifyList] at h
    rcases hstep : classifyStep s m with e1 | s1 <;> rw [hstep] at h
    · simp only [Except.error.injEq] at h
      exact classifyStep_err_eq s m e (h ▸ hstep)
    · exact ih s1 e h

lemma classifyList_nonsquare (mats : List CMat) : ∀ (s : ClassState),
    (∃ m ∈ mats, ¬ is_square m) →
    classifyList s mats = .error .nonSquareOperator := by
  induction mats with
  | nil => intro s h; simp at h
  | cons m rest ih =>
    intro s h
    by_cases hsq : is_square m
    · obtain ⟨x, hx, hnsq⟩ := h
      rcases List.mem_cons.mp hx with rfl | hxr
      · exact absurd hsq hnsq
      · obtain ⟨s1, hs1⟩ := classifyStep_ok_of_square s m hsq
        simp only [classifyList, hs1]
        exact ih s1 ⟨x, hxr, hnsq⟩
    · simp only [classifyList, classifyStep_nonsquare s m hsq]

lemma classifyList_nonneg (mats : List CMat) : ∀ (s s1 : ClassState),
    0 ≤ s.p_identity → 0 ≤ s.p_unitary → classifyList s mats = .ok s1 →
    0 ≤ s1.p_identity ∧ 0 ≤ s1.p_unitary := by
  induction mats with
  | nil =>
    intro s s1 h0 h1 h
    simp only [classifyList, Except.ok.injEq] at h
    exact h ▸ ⟨h0, h1⟩
  | cons m rest ih =>
    intro s s1 h0 h1 h
    simp only [classifyList] at h
    rcases hstep : classifyStep s m with e | s2 <;> rw [hstep] at h
    · exact absurd h (by simp)
    · obtain ⟨h0', h1'⟩ := classifyStep_preserves_nonneg s s2 m hstep h0 h1
      exact ih s2 s1 h0' h1' h

lemma sfo_nil (g : GateError) (pe : ℝ) :
    g.set_from_ops [] pe = .error .outOfBounds := rfl

lemma sfo_invalidChannel (g : GateError) (m0 : CMat) (rest : List CMat) (pe : ℝ)
    (h : ¬ is_identity (cptpSum (m0 :: rest) m0.cols) threshold) :
    g.set_from_ops (m0 :: rest) pe = .error .invalidChannel := by
  simp only [GateError.set_from_ops, if_pos h]

lemma sfo_classify_err (g : GateError) (m0 : CMat) (rest : List CMat) (pe : ℝ)
    (e : GError)
    (hcp : is_identity (cptpSum (m0 :: rest) m0.cols) threshold)
    (hcl : classify (m0 :: rest) = .error e) :
    g.set_from_ops (m0 :: rest) pe = .error e := by
  simp only [GateError.set_from_ops, if_neg (not_not_intro hcp), hcl]

lemma sfo_ok (g : GateError) (m0 : CMat) (rest : List CMat) (pe : ℝ)
    (s : ClassState)
    (hcp : is_identity (cptpSum (m0 :: rest) m0.cols) threshold)
    (hcl : classify (m0 :: rest) = .ok s) :
    g.set_from_ops (m0 :: rest) pe = .ok
      { probabilities_ := [1 - pe + pe * s.p_identity, pe * s.p_unitary,
          pe * (1 - s.p_identity - s.p_unitary)]
        unitary_error_ := ⟨if s.p_unitary > 0 ∧ s.p_unitary < 1
            then s.probs_unitaries.map (fun p => p / s.p_unitary)
            else s.probs_unitaries,
          s.unitaries⟩
        kraus_error_ :=
          ⟨if (1 - s.p_identity - s.p_unitary) > 0 ∧
              (1 - s.p_identity - s.p_unitary) < 1
            then s.kraus.map
              (fun k => smulMat (1 / Real.sqrt (1 - s.p_identity - s.p_unitary)) k)
            else s.kraus,
          if (if (1 - s.p_identity - s.p_unitary) > 0 ∧
                (1 - s.p_identity - s.p_unitary) < 1
              then s.kraus.map
                (fun k => smulMat (1 / Real.sqrt (1 - s.p_identity - s.p_unitary)) k)
              else s.kraus).isEmpty
            then 0 else 1⟩ } := by
  simp only [GateError.set_from_ops, if_neg (not_not_intro hcp), hcl,
    if_neg (sanity_check_false s.p_identity s.p_unitary), GateError.set_probabilities]

lemma abs_ofReal_sub_one (r : ℝ) : Complex.abs ((r : ℂ) - 1) = |r - 1| := by
  rw [show ((r : ℂ) - 1) = ((r - 1 : ℝ) : ℂ) by push_cast; ring, Complex.abs_ofReal]

lemma weight_I2 : weight I2 = 1 := by
  simp [weight, I2, Finset.sum_range_succ]

lemma weight_K0 : weight K0 = 1 := by
  simp [weight, K0, Finset.sum_range_succ]

lemma weight_K1 : weight K1 = 0 := by
  simp [weight, K1, Finset.sum_range_succ]

lemma weight_Meps : weight Meps = (1 + eps) ^ 2 := by
  have he : (0 : ℝ) ≤ 1 + eps := by norm_num [eps]
  simp only [weight, show Meps.rows = 2 from rfl, Finset.sum_range_succ,
    Finset.sum_range_zero, zero_add]
  have h1 : Meps.entry 0 0 = ((1 + eps : ℝ) : ℂ) := by simp [Meps]
  have h2 : Meps.entry 1 0 = 0 := by simp [Meps]
  have h3 : Meps.entry 0 1 = 0 := by simp [Meps]
  rw [h1, h2, h3, Complex.conj_ofReal, ← Complex.ofReal_mul, Complex.abs_ofReal,
    abs_of_nonneg (mul_nonneg he he), zero_mul, map_zero]
  ring

lemma cptp_I2 : is_identity (cptpSum [I2] I2.cols) threshold := by
  refine ⟨rfl, ?_⟩
  intro i hi j hj
  simp only [cptpSum, I2, zeroMat, madd, mmul, dagger, List.foldl] at *
  interval_cases i <;> interval_cases j <;>
    simp [Finset.sum_range_succ, threshold]

lemma cptp_Mhalf_not : ¬ is_identity (cptpSum [Mhalf] Mhalf.cols) threshold := by
  rintro ⟨-, h⟩
  have hr : (cptpSum [Mhalf] Mhalf.cols).rows = 2 := rfl
  have hc : (cptpSum [Mhalf] Mhalf.cols).cols = 2 := rfl
  have e00 : (cptpSum [Mhalf] Mhalf.cols).entry 0 0 = (1 / 4 : ℂ) := by
    simp [cptpSum, Mhalf, zeroMat, madd, mmul, dagger, List.foldl,
      Finset.sum_range_succ, map_inv₀, map_ofNat]
    norm_num
  have h00 := h 0 (by rw [hr]; norm_num) 0 (by rw [hc]; norm_num)
  rw [e00, if_pos rfl,
    show ((1 / 4 : ℂ) - 1) = ((-(3 / 4) : ℝ) : ℂ) by push_cast; norm_num,
    Complex.abs_ofReal, abs_neg, abs_of_nonneg (by norm_num : (0:ℝ) ≤ 3 / 4)] at h00
  norm_num [threshold] at h00
lemma cptp_Mcol : is_identity (cptpSum [Mcol] Mcol.cols) threshold := by
  refine ⟨rfl, ?_⟩
  intro i hi j hj
  simp only [cptpSum, Mcol, zeroMat, madd, mmul, dagger, List.foldl] at *
  interval_cases i <;> interval_cases j <;> simp [Finset.sum_range_succ, threshold]

lemma cptp_McolHalf_not :
    ¬ is_identity (cptpSum [McolHalf] McolHalf.cols) threshold := by
  rintro ⟨-, h⟩
  have hr : (cptpSum [McolHalf] McolHalf.cols).rows = 1 := rfl
  have hc : (cptpSum [McolHalf] McolHalf.cols).cols = 1 := rfl
  have e00 : (cptpSum [McolHalf] McolHalf.cols).entry 0 0 = (1 / 4 : ℂ) := by
    simp [cptpSum, McolHalf, zeroMat, madd, mmul, dagger, List.foldl,
      Finset.sum_range_succ, map_inv₀, map_ofNat]
    norm_num
  have h00 := h 0 (by rw [hr]; norm_num) 0 (by rw [hc]; norm_num)
  rw [e00, if_pos rfl,
    show ((1 / 4 : ℂ) - 1) = ((-(3 / 4) : ℝ) : ℂ) by push_cast; norm_num,
    Complex.abs_ofReal, abs_neg, abs_of_nonneg (by norm_num : (0:ℝ) ≤ 3 / 4)] at h00
  norm_num [threshold] at h00

lemma cptp_K : is_identity (cptpSum [K0, K1] K0.cols) threshold := by
  refine ⟨rfl, ?_⟩
  intro i hi j hj
  simp only [cptpSum, K0, K1, zeroMat, madd, mmul, dagger, List.foldl] at *
  interval_cases i <;> interval_cases j <;>
    norm_num [Finset.sum_range_succ, map_div₀, map_ofNat, threshold]

lemma cptp_Meps : is_identity (cptpSum [Meps] Meps.cols) threshold := by
  have hr : (cptpSum [Meps] Meps.cols).rows = 2 := rfl
  have hc : (cptpSum [Meps] Meps.cols).cols = 2 := rfl
  have a00 : Meps.entry 0 0 = ((1 + eps : ℝ) : ℂ) := by simp [Meps]
  have a11 : Meps.entry 1 1 = ((1 + eps : ℝ) : ℂ) := by simp [Meps]
  have a01 : Meps.entry 0 1 = 0 := by simp [Meps]
  have a10 : Meps.entry 1 0 = 0 := by simp [Meps]
  have habs : Complex.abs (((1 + eps : ℝ) : ℂ) * ((1 + eps : ℝ) : ℂ) - 1) ≤ threshold := by
    rw [← Complex.ofReal_mul, abs_ofReal_sub_one,
      show ((1 + eps) * (1 + eps) - 1 : ℝ) = 8 / 10 ^ 11 + 16 / 10 ^ 22 by norm_num [eps],
      abs_of_nonneg (by norm_num : (0:ℝ) ≤ 8 / 10 ^ 11 + 16 / 10 ^ 22)]
    norm_num [threshold]
  have hent : ∀ i j, (cptpSum [Meps] Meps.cols).entry i j =
      (starRingEnd ℂ) (Meps.entry 0 i) * Meps.entry 0 j +
      (starRingEnd ℂ) (Meps.entry 1 i) * Meps.entry 1 j := by
    intro i j
    simp only [cptpSum, List.foldl, madd, mmul, dagger, zeroMat]
    rw [show Meps.rows = 2 from rfl, Finset.sum_range_succ, Finset.sum_range_succ,
      Finset.sum_range_zero, zero_add, zero_add]
  refine ⟨rfl, ?_⟩
  intro i hi j hj
  rw [hr] at hi
  rw [hc] at hj
  interval_cases i <;> interval_cases j
  · rw [hent]
    simp only [a00, a10, Complex.conj_ofReal, map_zero, zero_mul, add_zero]
    simpa using habs
  · rw [hent]
    simp only [a00, a01, a10, a11, Complex.conj_ofReal, map_zero, zero_mul,
      mul_zero, add_zero, zero_add]
    simp [threshold]
  · rw [hent]
    simp only [a00, a01, a10, a11, Complex.conj_ofReal, map_zero, zero_mul,
      mul_zero, add_zero, zero_add]
    simp [threshold]
  · rw [hent]
    simp only [a11, a01, Complex.conj_ofReal, map_zero, zero_mul, zero_add]
    simpa using habs

lemma nsq_Mcol : ¬ is_square Mcol := by simp [is_square, Mcol]

lemma nsq_McolHalf : ¬ is_square McolHalf := by simp [is_square, McolHalf]

lemma inv_sqrt_weight_I2 : 1 / Real.sqrt (weight I2) = 1 := by
  rw [weight_I2, Real.sqrt_one, one_div_one]

lemma inv_sqrt_weight_K0 : 1 / Real.sqrt (weight K0) = 1 := by
  rw [weight_K0, Real.sqrt_one, one_div_one]

lemma inv_sqrt_weight_Meps : 1 / Real.sqrt (weight Meps) = 1 / (1 + eps) := by
  rw [weight_Meps, Real.sqrt_sq (by norm_num [eps] : (0:ℝ) ≤ 1 + eps)]

lemma tmp_I2_id : is_identity (smulMat (1 / Real.sqrt (weight I2)) I2) threshold := by
  rw [inv_sqrt_weight_I2]
  refine ⟨rfl, ?_⟩
  intro i hi j hj
  simp only [smulMat, I2] at *
  interval_cases i <;> interval_cases j <;> simp [threshold]

lemma tmp_Meps_id :
    is_identity (smulMat (1 / Real.sqrt (weight Meps)) Meps) threshold := by
  rw [inv_sqrt_weight_Meps]
  have hne : (1 + eps : ℝ) ≠ 0 := by norm_num [eps]
  have hone : ((1 / (1 + eps) : ℝ) : ℂ) * ((1 + eps : ℝ) : ℂ) = 1 := by
    rw [← Complex.ofReal_mul]
    field_simp
  refine ⟨rfl, ?_⟩
  intro i hi j hj
  simp only [smulMat] at *
  rw [show Meps.rows = 2 from rfl] at hi
  rw [show Meps.cols = 2 from rfl] at hj
  interval_cases i <;> interval_cases j <;>
    simp only [show Meps.entry 0 0 = ((1 + eps : ℝ) : ℂ) from by simp [Meps],
      show Meps.entry 1 1 = ((1 + eps : ℝ) : ℂ) from by simp [Meps],
      show Meps.entry 0 1 = 0 from by simp [Meps],
      show Meps.entry 1 0 = 0 from by simp [Meps], hone, mul_zero] <;>
    simp [threshold]

lemma tmp_K0_not_id :
    ¬ is_identity (smulMat (1 / Real.sqrt (weight K0)) K0) threshold := by
  rw [inv_sqrt_weight_K0]
  rintro ⟨-, h⟩
  have e11 : (smulMat (1:ℝ) K0).entry 1 1 = (4 / 5 : ℂ) := by simp [smulMat, K0]
  have h11 := h 1 (by norm_num [smulMat, K0]) 1 (by norm_num [smulMat, K0])
  rw [e11, if_pos rfl,
    show ((4 / 5 : ℂ) - 1) = ((-(1 / 5) : ℝ) : ℂ) by push_cast; norm_num,
    Complex.abs_ofReal, abs_neg,
    abs_of_nonneg (by norm_num : (0:ℝ) ≤ 1 / 5)] at h11
  norm_num [threshold] at h11

lemma tmp_K0_not_unitary :
    ¬ is_unitary (smulMat (1 / Real.sqrt (weight K0)) K0) threshold := by
  rw [inv_sqrt_weight_K0]
  rintro ⟨-, h⟩
  have t00 : (smulMat (1:ℝ) K0).entry 1 0 = 0 := by simp [smulMat, K0]
  have t11 : (smulMat (1:ℝ) K0).entry 1 1 = (4 / 5 : ℂ) := by simp [smulMat, K0]
  have e11 : (mmul (smulMat 1 K0) (dagger (smulMat 1 K0))).entry 1 1
      = (16 / 25 : ℂ) := by
    simp only [mmul, dagger]
    rw [show (smulMat (1:ℝ) K0).cols = 2 from rfl, Finset.sum_range_succ,
      Finset.sum_range_succ, Finset.sum_range_zero, t00, t11]
    norm_num [map_div₀, map_ofNat]
  have h11 := h 1 (by norm_num [mmul, smulMat, dagger, K0]) 1
    (by norm_num [mmul, smulMat, dagger, K0])
  rw [e11, if_pos rfl,
    show ((16 / 25 : ℂ) - 1) = ((-(9 / 25) : ℝ) : ℂ) by push_cast; norm_num,
    Complex.abs_ofReal, abs_neg,
    abs_of_nonneg (by norm_num : (0:ℝ) ≤ 9 / 25)] at h11
  norm_num [threshold] at h11

lemma classify_I2 : classify [I2] = .ok ⟨1, 0, [], [], []⟩ := by
  have h1 := classifyStep_id ⟨0, 0, [], [], []⟩ I2 rfl
    (by rw [weight_I2]; norm_num) tmp_I2_id
  simp only [classify, classifyList, h1]
  simp [weight_I2]

lemma classify_K : classify [K0, K1] = .ok ⟨0, 0, [], [], [K0]⟩ := by
  have h1 := classifyStep_kraus ⟨0, 0, [], [], []⟩ K0 rfl
    (by rw [weight_K0]; norm_num) tmp_K0_not_id tmp_K0_not_unitary
  have h2 : ∀ s : ClassState, classifyStep s K1 = .ok s := fun s =>
    classifyStep_drop s K1 rfl (by rw [weight_K1]; norm_num)
  simp only [classify, classifyList, h1, h2]
  simp

lemma classify_Meps : classify [Meps] = .ok ⟨(1 + eps) ^ 2, 0, [], [], []⟩ := by
  have h1 := classifyStep_id ⟨0, 0, [], [], []⟩ Meps rfl
    (by rw [weight_Meps]; norm_num [eps]) tmp_Meps_id
  simp only [classify, classifyList, h1]
  simp [weight_Meps]

lemma sfo_I2_eval : g0.set_from_ops [I2] 1 = .ok ⟨[1, 0, 0], ⟨[], []⟩, ⟨[], 0⟩⟩ := by
  rw [sfo_ok g0 I2 [] 1 ⟨1, 0, [], [], []⟩ cptp_I2 classify_I2]
  norm_num

lemma sfo_K_eval :
    g0.set_from_ops [K0, K1] 1 = .ok ⟨[0, 0, 1], ⟨[], []⟩, ⟨[K0], 1⟩⟩ := by
  rw [sfo_ok g0 K0 [K1] 1 ⟨0, 0, [], [], [K0]⟩ cptp_K classify_K]
  norm_num

lemma sfo_Meps_eval : g0.set_from_ops [Meps] 1 =
    .ok ⟨[(1 + eps) ^ 2, 0, 1 - (1 + eps) ^ 2], ⟨[], []⟩, ⟨[], 0⟩⟩ := by
  rw [sfo_ok g0 Meps [] 1 ⟨(1 + eps) ^ 2, 0, [], [], []⟩ cptp_Meps classify_Meps]
  norm_num [eps]

lemma sfo_McolHalf_eval : g0.set_from_ops [McolHalf] 1 = .error .invalidChannel :=
  sfo_invalidChannel g0 McolHalf [] 1 cptp_McolHalf_not

lemma K1_true_weight : ((mmul K1 (dagger K1)).entry 0 0).re = 9 / 25 := by
  have h : (mmul K1 (dagger K1)).entry 0 0 = ((9 / 25 : ℝ) : ℂ) := by
    simp only [mmul, dagger]
    rw [show K1.cols = 2 from rfl, Finset.sum_range_succ, Finset.sum_range_succ,
      Finset.sum_range_zero, show K1.entry 0 0 = 0 from by simp [K1],
      show K1.entry 0 1 = (3 / 5 : ℂ) from by simp [K1]]
    push_cast
    norm_num [map_div₀, map_ofNat]
  rw [h, Complex.ofReal_re]

/-! Claim theorems. -/

/-- Claim C1: the claim states that the weight p accumulated for M equals
the real part of the (0,0) entry of M times adjoint(M), and that M is
dropped exactly when that value is 0.  The code computes a different
quantity (the sum of abs(M(j,0) * conj(M(0,j))) over j), contradicting its
own comment.  At the amplitude-damping input [K0, K1] the code's weight
for K1 is 0, so K1 is dropped from every candidate list and weight, even
though the real part of the (0,0) entry of K1 times adjoint(K1) is
9/25, which is nonzero. -/
theorem claimC1_eval :
    weight K1 = 0 ∧ ((mmul K1 (dagger K1)).entry 0 0).re = 9 / 25 ∧
    g0.set_from_ops [K0, K1] 1 = .ok ⟨[0, 0, 1], ⟨[], []⟩, ⟨[K0], 1⟩⟩ ∧
    (9 / 25 : ℝ) ≠ 0 :=
  ⟨weight_K1, K1_true_weight, sfo_K_eval, by norm_num⟩

/-- Claim C2: for every non-empty input list whose adjoint-product sum is
not an identity within the tolerance, set_from_ops fails with
InvalidChannel, before any classification work and regardless of the
input's other properties; no model is constructed. -/
theorem claimC2 (g : GateError) (m0 : CMat) (rest : List CMat) (p_error : ℝ)
    (hcp : ¬ is_identity (cptpSum (m0 :: rest) m0.cols) threshold) :
    g.set_from_ops (m0 :: rest) p_error = .error .invalidChannel :=
  sfo_invalidChannel g m0 rest p_error hcp

/-- Witness for claim C2 at the concrete non-CPTP input [I/2]. -/
theorem claimC2_witness :
    ¬ is_identity (cptpSum [Mhalf] Mhalf.cols) threshold ∧
    g0.set_from_ops [Mhalf] 1 = .error .invalidChannel :=
  ⟨cptp_Mhalf_not, claimC2 g0 Mhalf [] 1 cptp_Mhalf_not⟩

/-- Claim C3, amended: the recovered weights p_identity and p_unitary are
non-negative and the three weights sum to 1 exactly, so the
InvalidDecomposition sanity check never fires; but p_kraus, inferred as
1 - p_identity - p_unitary, can be negative within the tolerance slack
(see the counterexample), so the three weights are not all non-negative
as the original claim states. -/
theorem claimC3 :
    (∀ (mats : List CMat) (s : ClassState), classify mats = .ok s →
      0 ≤ s.p_identity ∧ 0 ≤ s.p_unitary ∧
      s.p_identity + s.p_unitary + (1 - s.p_identity - s.p_unitary) = 1) ∧
    (∀ (g : GateError) (mats : List CMat) (p_error : ℝ),
      g.set_from_ops mats p_error ≠ .error .invalidDecomposition) := by
  constructor
  · intro mats s h
    obtain ⟨h0, h1⟩ := classifyList_nonneg mats ⟨0, 0, [], [], []⟩ s
      (le_refl 0) (le_refl 0) (by simpa [classify] using h)
    exact ⟨h0, h1, by ring⟩
  · intro g mats pe
    cases mats with
    | nil => rw [sfo_nil]; simp
    | cons m0 rest =>
      by_cases hcp : is_identity (cptpSum (m0 :: rest) m0.cols) threshold
      · rcases hcl : classify (m0 :: rest) with e | s
        · rw [sfo_classify_err g m0 rest pe e hcp hcl]
          have he := classifyList_err_eq (m0 :: rest) ⟨0, 0, [], [], []⟩ e
            (by simpa [classify] using hcl)
          simp [he]
        · rw [sfo_ok g m0 rest pe s hcp hcl]
          simp
      · rw [sfo_invalidChannel g m0 rest pe hcp]
        simp

/-- Witness for claim C3 at the single-identity input. -/
theorem claimC3_witness :
    ((0 : ℝ) ≤ 1 ∧ (0 : ℝ) ≤ 0 ∧ (1 + 0 + (1 - 1 - 0) : ℝ) = 1) ∧
    g0.set_from_ops [I2] 1 ≠ .error .invalidDecomposition := by
  constructor
  · have h := claimC3.1 [I2] ⟨1, 0, [], [], []⟩ classify_I2
    simpa using h
  · exact claimC3.2 g0 [I2] 1

/-- Counterexample for claim C3 as stated: the scaled identity (1+eps) I
passes the CPTP check within tolerance, yet the inferred Kraus weight
stored in the distribution is 1 - (1+eps)^2 < 0, so the three recovered
weights are not all non-negative. -/
theorem claimC3_cex :
    g0.set_from_ops [Meps] 1 =
      .ok ⟨[(1 + eps) ^ 2, 0, 1 - (1 + eps) ^ 2], ⟨[], []⟩, ⟨[], 0⟩⟩ ∧
    (1 - (1 + eps) ^ 2 : ℝ) < 0 :=
  ⟨sfo_Meps_eval, by norm_num [eps]⟩

/-- Claim C4: on every successful run, the stored three-way distribution
is exactly [1 - p_error + p_error * p_identity, p_error * p_unitary,
p_error * p_kraus] for the classified weights; and for the single
identity-matrix input with p_error = 1 the distribution assigns weight 1
to the identity branch. -/
theorem claimC4 :
    (∀ (g : GateError) (mats : List CMat) (p_error : ℝ) (s : ClassState)
      (G : GateError), classify mats = .ok s →
      g.set_from_ops mats p_error = .ok G →
      G.probabilities_ = [1 - p_error + p_error * s.p_identity,
        p_error * s.p_unitary, p_error * (1 - s.p_identity - s.p_unitary)]) ∧
    g0.set_from_ops [I2] 1 = .ok ⟨[1, 0, 0], ⟨[], []⟩, ⟨[], 0⟩⟩ := by
  constructor
  · intro g mats pe s G hcl hG
    cases mats with
    | nil =>
      rw [sfo_nil] at hG
      exact absurd hG (by simp)
    | cons m0 rest =>
      by_cases hcp : is_identity (cptpSum (m0 :: rest) m0.cols) threshold
      · rw [sfo_ok g m0 rest pe s hcp hcl] at hG
        have hGe := (Except.ok.injEq _ _).mp hG
        rw [← hGe]
      · rw [sfo_invalidChannel g m0 rest pe hcp] at hG
        exact absurd hG (by simp)
  · exact sfo_I2_eval

/-- Witness for claim C4 at the single-identity input. -/
theorem claimC4_witness :
    (GateError.mk [1, 0, 0] ⟨[], []⟩ ⟨[], 0⟩).probabilities_ =
      [1 - 1 + 1 * (ClassState.mk 1 0 [] [] []).p_identity,
        1 * (ClassState.mk 1 0 [] [] []).p_unitary,
        1 * (1 - (ClassState.mk 1 0 [] [] []).p_identity -
          (ClassState.mk 1 0 [] [] []).p_unitary)] :=
  claimC4.1 g0 [I2] 1 ⟨1, 0, [], [], []⟩ ⟨[1, 0, 0], ⟨[], []⟩, ⟨[], 0⟩⟩
    classify_I2 claimC4.2

/-- Claim C5, amended: when the Kraus candidate list is empty,
set_from_ops nevertheless completes successfully and merely sets the
Kraus sub-channel's activation probability to 0; no InvalidDecomposition
error is raised even when the kraus entry of the distribution is nonzero
(see the counterexample). -/
theorem claimC5 (g G : GateError) (mats : List CMat) (p_error : ℝ)
    (hok : g.set_from_ops mats p_error = .ok G)
    (hk : G.kraus_error_.kraus = []) : G.kraus_error_.probability = 0 := by
  cases mats with
  | nil =>
    rw [sfo_nil] at hok
    exact absurd hok (by simp)
  | cons m0 rest =>
    by_cases hcp : is_identity (cptpSum (m0 :: rest) m0.cols) threshold
    · rcases hcl : classify (m0 :: rest) with e | s
      · rw [sfo_classify_err g m0 rest p_error e hcp hcl] at hok
        exact absurd hok (by simp)
      · rw [sfo_ok g m0 rest p_error s hcp hcl] at hok
        have hGe := (Except.ok.injEq _ _).mp hok
        rw [← hGe] at hk ⊢
        simp only at hk ⊢
        rw [hk]
        simp
    · rw [sfo_invalidChannel g m0 rest p_error hcp] at hok
      exact absurd hok (by simp)

/-- Witness for claim C5 at the (1+eps) I input, whose Kraus candidate
list is empty. -/
theorem claimC5_witness :
    (GateError.mk [(1 + eps) ^ 2, 0, 1 - (1 + eps) ^ 2] ⟨[], []⟩
      ⟨[], 0⟩).kraus_error_.probability = 0 :=
  claimC5 g0 _ [Meps] 1 sfo_Meps_eval rfl

/-- Counterexample for claim C5 as stated: at the (1+eps) I input the
Kraus candidate list is empty and the kraus entry of the distribution is
nonzero, yet set_from_ops completes successfully instead of failing with
InvalidDecomposition. -/
theorem claimC5_cex :
    g0.set_from_ops [Meps] 1 =
      .ok ⟨[(1 + eps) ^ 2, 0, 1 - (1 + eps) ^ 2], ⟨[], []⟩, ⟨[], 0⟩⟩ ∧
    (GateError.mk [(1 + eps) ^ 2, 0, 1 - (1 + eps) ^ 2] ⟨[], []⟩
      ⟨[], 0⟩).kraus_error_.kraus = [] ∧
    (GateError.mk [(1 + eps) ^ 2, 0, 1 - (1 + eps) ^ 2] ⟨[], []⟩
      ⟨[], 0⟩).probabilities_.getD 2 0 ≠ 0 ∧
    g0.set_from_ops [Meps] 1 ≠ .error .invalidDecomposition := by
  refine ⟨sfo_Meps_eval, rfl, ?_, ?_⟩
  · norm_num [eps]
  · rw [sfo_Meps_eval]
    simp

/-- Claim C6: sample_noise draws exactly one label (advancing the engine
by one position); label 0 returns the original operation as a singleton,
label 1 and 2 return verbatim the corresponding sub-channel's sample
result on the advanced engine, and any label above 2 is a fatal
UnreachableState error, never a silent fall-through. -/
theorem claimC6 (g : GateError) (op : Op) (qubits : List ℕ) (rng : RngEngine)
    (n : ℕ) (hdraw : rng.stream rng.pos = n) :
    (n = 0 → g.sample_noise op qubits rng = .ok ([op], ⟨rng.stream, rng.pos + 1⟩)) ∧
    (n = 1 → g.sample_noise op qubits rng =
      .ok (g.unitary_error_.sample_noise op qubits ⟨rng.stream, rng.pos + 1⟩)) ∧
    (n = 2 → g.sample_noise op qubits rng =
      .ok (g.kraus_error_.sample_noise op qubits ⟨rng.stream, rng.pos + 1⟩)) ∧
    (2 < n → g.sample_noise op qubits rng = .error .unreachableState) := by
  subst hdraw
  refine ⟨?_, ?_, ?_, ?_⟩ <;> intro h
  · simp only [GateError.sample_noise, RngEngine.rand_int, h]
  · simp only [GateError.sample_noise, RngEngine.rand_int, h]
  · simp only [GateError.sample_noise, RngEngine.rand_int, h]
  · obtain ⟨k, hk⟩ : ∃ k, rng.stream rng.pos = k + 3 :=
      ⟨rng.stream rng.pos - 3, by omega⟩
    simp only [GateError.sample_noise, RngEngine.rand_int, hk]

/-- Witness for claim C6 on an engine whose next draw is 0. -/
theorem claimC6_witness :
    g0.sample_noise op0 [] rng0 = .ok ([op0], ⟨rng0.stream, rng0.pos + 1⟩) :=
  (claimC6 g0 op0 [] rng0 0 rfl).1 rfl

/-- Claim C7, amended: for every input list that passes the CPTP
validation and contains a non-square matrix, set_from_ops raises
NonSquareOperator during the classification scan (so no partition
completes and no model is constructed); when the CPTP validation fails,
InvalidChannel is raised instead even if a non-square matrix is present
(see the counterexample). -/
theorem claimC7 (g : GateError) (m0 : CMat) (rest : List CMat) (p_error : ℝ)
    (hcp : is_identity (cptpSum (m0 :: rest) m0.cols) threshold)
    (hns : ∃ m ∈ m0 :: rest, ¬ is_square m) :
    g.set_from_ops (m0 :: rest) p_error = .error .nonSquareOperator := by
  have hcl : classify (m0 :: rest) = .error .nonSquareOperator := by
    simpa [classify] using classifyList_nonsquare (m0 :: rest) ⟨0, 0, [], [], []⟩ hns
  exact sfo_classify_err g m0 rest p_error _ hcp hcl

/-- Witness for claim C7 at the non-square column [1; 0], which passes
the CPTP validation. -/
theorem claimC7_witness :
    is_identity (cptpSum [Mcol] Mcol.cols) threshold ∧
    g0.set_from_ops [Mcol] 1 = .error .nonSquareOperator :=
  ⟨cptp_Mcol, claimC7 g0 Mcol [] 1 cptp_Mcol ⟨Mcol, by simp, nsq_Mcol⟩⟩

/-- Counterexample for claim C7 as stated: the non-square column [1/2; 0]
fails the CPTP validation, so set_from_ops raises InvalidChannel, not
NonSquareOperator, although a non-square matrix is in the input. -/
theorem claimC7_cex :
    ¬ is_square McolHalf ∧
    g0.set_from_ops [McolHalf] 1 = .error .invalidChannel ∧
    g0.set_from_ops [McolHalf] 1 ≠ .error .nonSquareOperator := by
  refine ⟨nsq_McolHalf, sfo_McolHalf_eval, ?_⟩
  rw [sfo_McolHalf_eval]
  simp

/-- Claim C8: set_probabilities stores exactly the three supplied values
as the three-outcome distribution, with no renormalization, for all
values including ones that do not sum to 1; the sub-channels are left
untouched. -/
theorem claimC8 (g : GateError) (p_identity p_unitary p_kraus : ℝ) :
    (g.set_probabilities p_identity p_unitary p_kraus).probabilities_ =
      [p_identity, p_unitary, p_kraus] ∧
    (g.set_probabilities p_identity p_unitary p_kraus).unitary_error_ =
      g.unitary_error_ ∧
    (g.set_probabilities p_identity p_unitary p_kraus).kraus_error_ =
      g.kraus_error_ :=
  ⟨rfl, rfl, rfl⟩

/-- Claim C9: sampling is a deterministic function of the model state and
the randomness source's state: two engines in the same seed state produce
the identical sequence of branch choices and the identical sequence of
sampling results. -/
theorem claimC9 (g : GateError) (op : Op) (qubits : List ℕ) (n : ℕ)
    (rng1 rng2 : RngEngine) (hs : rng1.stream = rng2.stream)
    (hp : rng1.pos = rng2.pos) :
    branch_seq g n rng1 = branch_seq g n rng2 ∧
    sample_seq g op qubits n rng1 = sample_seq g op qubits n rng2 := by
  obtain ⟨s1, p1⟩ := rng1
  obtain ⟨s2, p2⟩ := rng2
  cases hs
  cases hp
  exact ⟨rfl, rfl⟩

/-- Witness for claim C9 with two syntactically different engines in the
same seed state. -/
theorem claimC9_witness :
    branch_seq g0 3 rng0 = branch_seq g0 3 rngB ∧
    sample_seq g0 op0 [] 3 rng0 = sample_seq g0 op0 [] 3 rngB :=
  claimC9 g0 op0 [] 3 rng0 rngB (funext fun k => by simp [rng0, rngB]) rfl

/-- Claim C10: set_from_ops reads mats[0] before any validation, so the
non-empty precondition is required: on the empty list the run is the
out-of-bounds access (none of the specified errors), and on every
non-empty list the initial access is in bounds, so the out-of-bounds
outcome never occurs. -/
theorem claimC10 :
    (∀ (g : GateError) (p_error : ℝ),
      g.set_from_ops [] p_error = .error .outOfBounds) ∧
    (∀ (g : GateError) (m0 : CMat) (rest : List CMat) (p_error : ℝ),
      g.set_from_ops (m0 :: rest) p_error ≠ .error .outOfBounds) := by
  constructor
  · intro g pe
    exact sfo_nil g pe
  · intro g m0 rest pe
    by_cases hcp : is_identity (cptpSum (m0 :: rest) m0.cols) threshold
    · rcases hcl : classify (m0 :: rest) with e | s
      · rw [sfo_classify_err g m0 rest pe e hcp hcl]
        have he := classifyList_err_eq (m0 :: rest) ⟨0, 0, [], [], []⟩ e
          (by simpa [classify] using hcl)
        simp [he]
      · rw [sfo_ok g m0 rest pe s hcp hcl]
        simp
    · rw [sfo_invalidChannel g m0 rest pe hcp]
      simp

/-- Witness for claim C10 at the empty input and at a singleton input. -/
theorem claimC10_witness :
    g0.set_from_ops [] 1 = .error .outOfBounds ∧
    g0.set_from_ops [I2] 1 ≠ .error .outOfBounds :=
  ⟨claimC10.1 g0 1, claimC10.2 g0 I2 [] 1⟩

end AerNoise

end
